import Mathlib

/-!
Verification of the alignment geometry engine of `src/main.py` (a QGIS
plugin for station/offset referencing along measured road alignments).

The development is a shallow embedding in two layers:

* a rational-arithmetic layer for the curve decomposer
  (`AlignmentMapTool._parseAlignmentSegments` and
  `AlignmentSegment._circle_center_from_three_points`), where every
  definition is computable and every concrete statement decidable;
* a real-arithmetic layer for the trigonometric parts (buffer sweep
  angles, curvature, projection and inverse lookup), where Python's
  `math.atan2 y x` is embedded as `Complex.arg (x + y i)` and
  `math.sqrt` as `Real.sqrt`.

Python floats are idealised as exact rational/real numbers.  Exceptional
control flow (Python exceptions such as `ZeroDivisionError`) is embedded
explicitly: the circle-centre construction returns a three-way result
(finite centre / non-finite centre / raises), and only the raising path
makes the enclosing `try/except` of the decomposer skip the offending
shape.  In particular, when both perpendicular-bisector slopes are
`float('inf')` (three points at one `y`), the source computes a
non-finite centre without raising and the segment is appended; the
embedding keeps that segment, tracking only that its centre is not a
finite point.
-/

namespace AlignmentSpec

/-- A 2-D point with rational coordinates (an idealised `QgsPointXY`). -/
structure Pt where
  x : ℚ
  y : ℚ
deriving DecidableEq, Repr

/-- A parsed vertex of an alignment shape: 2-D coordinates together with
the measure value the parser extracts for it (the fourth WKT value when
present, otherwise the third; a textual `NULL` Z is normalised to `0`
before numeric parsing, which the structured embedding leaves behind). -/
structure Vtx where
  x : ℚ
  y : ℚ
  m : ℚ
deriving DecidableEq, Repr

/-- The 2-D point of a vertex. -/
def Vtx.pt (v : Vtx) : Pt := ⟨v.x, v.y⟩

/-- The segment kinds of the source (`segment_type` strings
`'line'` and `'circular'`). -/
inductive SegKind where
  | line
  | circular
deriving DecidableEq, Repr

/-- The decomposer's output record: the fields of `AlignmentSegment`
that the decomposition claims are about (`geometry`, `start_measure`,
`end_measure`, `segment_type`).  The derived arc fields (`center`,
`radius`) and the buffer are handled in the real-arithmetic layer. -/
structure Seg where
  geometry : List Vtx
  start_measure : ℚ
  end_measure : ℚ
  segment_type : SegKind
deriving DecidableEq, Repr

/-- The outcome of `AlignmentSegment._circle_center_from_three_points`
under float idealisation: a finite centre point, a centre with a
non-finite coordinate (computed without raising, so the caller
proceeds with it), or a raised `ZeroDivisionError`. -/
inductive CircleCenterResult where
  | center (c : Pt)
  | nonFinite
  | raises
deriving DecidableEq, Repr

/-- Embeds `AlignmentSegment._circle_center_from_three_points`.  The
perpendicular-bisector slopes are carried as `Option ℚ`, `none` standing
for the source's `float('inf')` sentinel (a vertical bisector):

* both slopes finite and equal — the source raises `ZeroDivisionError`
  in `(slope1 * mid_x1 - slope2 * mid_x2 + mid_y2 - mid_y1) /
  (slope1 - slope2)`: `.raises`;
* both slopes infinite (three points at one `y`) — the source takes
  the `slope1 == float('inf')` branch and computes
  `cy = slope2 * (cx - mid_x2) + mid_y2` with an infinite `slope2`,
  returning a centre with a non-finite `y` coordinate and no
  exception: `.nonFinite`;
* otherwise a finite centre point. -/
def circle_center_from_three_points (p1 p_mid p2 : Pt) : CircleCenterResult :=
  let mid_x1 := (p1.x + p_mid.x) / 2
  let mid_y1 := (p1.y + p_mid.y) / 2
  let mid_x2 := (p_mid.x + p2.x) / 2
  let mid_y2 := (p_mid.y + p2.y) / 2
  let slope1 : Option ℚ :=
    if p_mid.y - p1.y ≠ 0 then some (-(p_mid.x - p1.x) / (p_mid.y - p1.y)) else none
  let slope2 : Option ℚ :=
    if p2.y - p_mid.y ≠ 0 then some (-(p2.x - p_mid.x) / (p2.y - p_mid.y)) else none
  match slope1, slope2 with
  | none, some s2 => .center ⟨mid_x1, s2 * (mid_x1 - mid_x2) + mid_y2⟩
  | none, none => .nonFinite
  | some s1, none => .center ⟨mid_x2, s1 * (mid_x2 - mid_x1) + mid_y1⟩
  | some s1, some s2 =>
      if s1 = s2 then .raises
      else .center ⟨(s1 * mid_x1 - s2 * mid_x2 + mid_y2 - mid_y1) / (s1 - s2),
                    s1 * ((s1 * mid_x1 - s2 * mid_x2 + mid_y2 - mid_y1) / (s1 - s2) - mid_x1)
                      + mid_y1⟩

/-- A component shape of a compound curve, after the textual WKT split:
either a polyline-with-measures (a plain parenthesised vertex list) or a
circular string (a `CIRCULARSTRING(...)` vertex list). -/
inductive Shape where
  | line (pts : List Vtx)
  | circular (pts : List Vtx)
deriving DecidableEq, Repr

/-- Embeds the line-component loop of `_parseAlignmentSegments`
(`for j in range(len(point_texts) - 1)`): every consecutive vertex pair
becomes its own two-point line segment whose `end_measure` is the
measure of the second vertex, and the running measure is threaded
through.  The two-point `LINESTRING` geometry built from two parsed
vertices is never empty, so every pair is appended — including
zero-length pairs (the source only warns about those later, when the
buffer is built, and leaves the buffer unset). -/
def lineSegs (current : ℚ) : List Vtx → ℚ × List Seg
  | a :: b :: rest =>
      let seg : Seg := ⟨[a, b], current, b.m, .line⟩
      let next := lineSegs b.m (b :: rest)
      (next.1, seg :: next.2)
  | _ => (current, [])

/-- Embeds the circular-string window loop of `_parseAlignmentSegments`
(`for j in range(0, num_points - 2, 2)`): consecutive three-point
windows advancing by two points, each becoming one circular segment
whose `end_measure` is the measure of the window's third vertex.  A
window whose circle construction raises makes the `AlignmentSegment`
constructor raise; the shape-level `except` then abandons the rest of
this shape (the remaining windows) and the decomposition continues with
the next shape, which the recursion models by returning the segments
produced so far.  A window with a non-finite centre (three points at
one `y`) raises nothing — the constructor and the buffer computation
run to completion on the non-finite values — so its segment is
appended like any other.  For a three-point string the source builds
the single segment directly rather than through the loop; the two
paths construct the same segment, so both are embedded by this
function. -/
def arcWindowSegs (current : ℚ) : List Vtx → ℚ × List Seg
  | p :: q :: r :: rest =>
      match circle_center_from_three_points p.pt q.pt r.pt with
      | .raises => (current, [])
      | .center _ =>
          let seg : Seg := ⟨[p, q, r], current, r.m, .circular⟩
          let next := arcWindowSegs r.m (r :: rest)
          (next.1, seg :: next.2)
      | .nonFinite =>
          let seg : Seg := ⟨[p, q, r], current, r.m, .circular⟩
          let next := arcWindowSegs r.m (r :: rest)
          (next.1, seg :: next.2)
  | _ => (current, [])

/-- Embeds the processing of one component shape of a compound curve.
A circular string with fewer than three vertices parses to an empty
geometry (`QgsGeometry.fromWkt` rejects it), so the shape produces
nothing and the running measure is unchanged; likewise a line shape
with fewer than two vertices has no consecutive pair. -/
def parseShape (current : ℚ) : Shape → ℚ × List Seg
  | .circular pts => if 3 ≤ pts.length then arcWindowSegs current pts else (current, [])
  | .line pts => lineSegs current pts

/-- Embeds the `COMPOUNDCURVE` branch of
`AlignmentMapTool._parseAlignmentSegments`: the shapes are processed in
order, the running measure (initialised to the alignment's start
measure) is threaded across all produced segments, and a failure inside
one shape never aborts the processing of the following shapes. -/
def parseShapes (current : ℚ) : List Shape → ℚ × List Seg
  | [] => (current, [])
  | s :: rest =>
      let first := parseShape current s
      let next := parseShapes first.1 rest
      (next.1, first.2 ++ next.2)

/-- The segment list of the decomposition of a compound curve starting
at measure `m` (the tool's `self.segments` after `setAlignment`). -/
def parseAlignmentSegments (m : ℚ) (shapes : List Shape) : List Seg :=
  (parseShapes m shapes).2

/-- Measure contiguity from `m`: the first segment starts at `m` and
each segment's `end_measure` is the next segment's `start_measure`. -/
def ChainFrom : ℚ → List Seg → Prop
  | _, [] => True
  | m, seg :: rest => seg.start_measure = m ∧ ChainFrom seg.end_measure rest

instance instDecChainFrom : ∀ m segs, Decidable (ChainFrom m segs)
  | _, [] => .isTrue trivial
  | _, seg :: rest =>
      haveI : Decidable (ChainFrom seg.end_measure rest) := instDecChainFrom _ _
      instDecidableAnd

/-- The running measure a chained list ends with. -/
def chainEnd : ℚ → List Seg → ℚ
  | m, [] => m
  | _, seg :: rest => chainEnd seg.end_measure rest

/-- A default vertex, for positional (`getD`) indexing in statements. -/
def vdflt : Vtx := ⟨0, 0, 0⟩

/-- A default segment, for positional (`getD`) indexing in statements. -/
def sdflt : Seg := ⟨[], 0, 0, .line⟩

/-! The real-arithmetic layer: the trigonometric parts of the engine
(buffer sweep angles, curvature, forward projection, inverse lookup).
Python floats are idealised as real numbers, `math.atan2 y x` is
embedded as `Complex.arg (x + y i)` (both have range `(-π, π]` and both
send the origin to `0`), `math.sqrt` as `Real.sqrt` and Python's `%`
with a positive modulus as `x - m * ⌊x / m⌋`. -/

/-- A 2-D point with real coordinates (an idealised `QgsPointXY`). -/
structure RPt where
  x : ℝ
  y : ℝ

/-- Embeds `_distance_between_points` (duplicated in the source in
`AlignmentSegment` and `AlignmentMapTool`): the Euclidean distance. -/
noncomputable def distance (p1 p2 : RPt) : ℝ :=
  Real.sqrt ((p1.x - p2.x) ^ 2 + (p1.y - p2.y) ^ 2)

/-- Embeds `math.atan2 y x`. -/
noncomputable def atan2 (y x : ℝ) : ℝ :=
  Complex.arg (↑x + ↑y * Complex.I)

/-- Embeds Python's `x % (2 * math.pi)` (the result lies in `[0, 2π)`
for the positive modulus `2π`). -/
noncomputable def mod2pi (x : ℝ) : ℝ :=
  x - 2 * Real.pi * ⌊x / (2 * Real.pi)⌋

/-- The cross product (z-component) of the centre-to-`p1` and
centre-to-`p2` vectors, as computed by `_calculate_curvature`
(`vec1[0]*vec2[1] - vec1[1]*vec2[0]`). -/
def crossAt (c p1 p2 : RPt) : ℝ :=
  (p1.x - c.x) * (p2.y - c.y) - (p1.y - c.y) * (p2.x - c.x)

/-- Embeds `_calculate_curvature` (the identical method appears on
`AlignmentMapTool` and on the plugin class): the principal angle from
the start bearing to the end bearing in degrees, negated when the
cross product of the centre-relative vectors is positive
(counterclockwise).  `p_mid` is a parameter of the source function but
is not used by it. -/
noncomputable def calculate_curvature (p1 p_mid p2 c : RPt) : ℝ :=
  let cross := crossAt c p1 p2
  let angle_start := atan2 (p1.y - c.y) (p1.x - c.x)
  let angle_end := atan2 (p2.y - c.y) (p2.x - c.x)
  let delta_angle := atan2 (Real.sin (angle_end - angle_start)) (Real.cos (angle_end - angle_start))
  let curvature_val := (180 / Real.pi) * |delta_angle|
  if cross > 0 then -curvature_val else curvature_val

/-- The swept angle between the bearings of `p1` and `p2` about `c`:
the absolute value of the principal representative (in `(-π, π]`,
via `Real.Angle`) of the bearing difference.  This is the
specification-level quantity the curvature magnitude is compared
against. -/
noncomputable def sweptAngle (c p1 p2 : RPt) : ℝ :=
  |(((atan2 (p2.y - c.y) (p2.x - c.x) - atan2 (p1.y - c.y) (p1.x - c.x) : ℝ) : Real.Angle)).toReal|

/-- Embeds the direction determination of
`AlignmentSegment.calculate_square_buffer` (source lines 74–91): the
cross products of consecutive centre-relative vectors decide
clockwise/counterclockwise; when they disagree in sign the larger
magnitude wins. -/
noncomputable def sweepIsClockwise (p1 p_mid p2 c : RPt) : Bool :=
  let cross_start_mid :=
    (p1.x - c.x) * (p_mid.y - c.y) - (p1.y - c.y) * (p_mid.x - c.x)
  let cross_mid_end :=
    (p_mid.x - c.x) * (p2.y - c.y) - (p_mid.y - c.y) * (p2.x - c.x)
  if cross_start_mid * cross_mid_end > 0 then
    if cross_start_mid < 0 then true else false
  else
    if cross_mid_end < 0 then
      if |cross_start_mid| < |cross_mid_end| then true else false
    else
      if |cross_start_mid| > |cross_mid_end| then true else false

/-- Embeds the nested helper `is_between` of `calculate_square_buffer`
(source lines 104–116): whether `mid` lies between `a` and `b` on the
circle, respecting the travel direction, over angles normalised to
`[0, 2π)`. -/
noncomputable def angleIsBetween (a mid b : ℝ) (clockwise : Bool) : Bool :=
  if clockwise then
    if a > b then
      if a ≥ mid ∧ mid ≥ b then true else false
    else
      if a ≥ mid ∨ mid ≥ b then true else false
  else
    if a < b then
      if a ≤ mid ∧ mid ≤ b then true else false
    else
      if a ≤ mid ∨ mid ≤ b then true else false

/-- Embeds the geometric sweep-angle computation of
`calculate_square_buffer` (source lines 93–138): bearings of the three
defining points normalised to `[0, 2π)`, the directed angular span from
start to end, complemented when the midpoint does not lie inside the
span. -/
noncomputable def rawSweepAngle (p1 p_mid p2 c : RPt) : ℝ :=
  let is_clockwise := sweepIsClockwise p1 p_mid p2 c
  let angle1 := mod2pi (atan2 (p1.y - c.y) (p1.x - c.x) + 2 * Real.pi)
  let angle_mid := mod2pi (atan2 (p_mid.y - c.y) (p_mid.x - c.x) + 2 * Real.pi)
  let angle2 := mod2pi (atan2 (p2.y - c.y) (p2.x - c.x) + 2 * Real.pi)
  let mid_is_between := angleIsBetween angle1 angle_mid angle2 is_clockwise
  let sweep :=
    if is_clockwise then
      if angle1 > angle2 then angle1 - angle2 else angle1 + (2 * Real.pi - angle2)
    else
      if angle2 > angle1 then angle2 - angle1 else (2 * Real.pi - angle1) + angle2
  if mid_is_between then sweep else 2 * Real.pi - sweep

/-- Embeds the measure cross-check of `calculate_square_buffer` (source
lines 140–159): the sweep angle actually used to build the buffer.  The
implied arc length `radius * sweep` is compared with the declared
measure span `end_measure - start_measure`; on a mismatch above 1 unit
the sweep is overridden with `(end_measure - start_measure) / radius`,
otherwise the geometric sweep is kept. -/
noncomputable def bufferSweepAngle (p1 p_mid p2 c : RPt) (radius start_measure end_measure : ℝ) : ℝ :=
  let sweep_angle := rawSweepAngle p1 p_mid p2 c
  let expected_arc_length := radius * sweep_angle
  let actual_arc_length := end_measure - start_measure
  if |expected_arc_length - actual_arc_length| > 1 then actual_arc_length / radius
  else sweep_angle

/-- Embeds the line branch of `calculate_square_buffer` (source lines
202–243) for the two-point geometry the decomposer produces: the
four-corner rectangle at perpendicular distance `bufferDistance` on
each side, or `none` (buffer left unset) for a zero-length line. -/
noncomputable def calculate_line_buffer (a b : RPt) (bufferDistance : ℝ) : Option (List RPt) :=
  let dx0 := b.x - a.x
  let dy0 := b.y - a.y
  let length := Real.sqrt (dx0 ^ 2 + dy0 ^ 2)
  if length = 0 then none
  else
    let dx := dx0 / length
    let dy := dy0 / length
    some [⟨a.x + -dy * bufferDistance, a.y + dx * bufferDistance⟩,
          ⟨a.x + dy * bufferDistance, a.y + -dx * bufferDistance⟩,
          ⟨b.x + dy * bufferDistance, b.y + -dx * bufferDistance⟩,
          ⟨b.x + -dy * bufferDistance, b.y + dx * bufferDistance⟩]

/-- The side classification of the source (strings `"left"`,
`"right"`, `"on-line"`, `"undefined"`). -/
inductive Side where
  | left
  | right
  | onLine
  | undefined
deriving DecidableEq, Repr

/-- The projector/inverse layer's segment record: the fields of
`AlignmentSegment` consumed by `_isPointInBuffers`,
`canvasMoveEvent` and the inverse lookup, over real coordinates.
`center` and `radius` are set for every circular segment the
decomposer appends (its constructor computes them from the first three
vertices); the buffer is `none` when buffer construction declined to
set one.  Line geometries are the two-point segments the compound
decomposer produces. -/
structure RSeg where
  geometry : List RPt
  start_measure : ℝ
  end_measure : ℝ
  segment_type : SegKind
  center : Option RPt := none
  radius : Option ℝ := none
  square_buffer : Option (List RPt) := none

/-- Embeds `_closest_point_on_arc_to_given_point`: radial projection of
the query point onto the circle of the given radius; a query exactly at
the centre projects to the point at bearing 0. -/
noncomputable def closest_point_on_arc_to_given_point (center : RPt) (radius : ℝ) (given : RPt) : RPt :=
  let vector_x := given.x - center.x
  let vector_y := given.y - center.y
  let dist := Real.sqrt (vector_x ^ 2 + vector_y ^ 2)
  if dist = 0 then ⟨center.x + radius, center.y⟩
  else ⟨center.x + vector_x / dist * radius, center.y + vector_y / dist * radius⟩

/-- Models `QgsGeometry.lineLocatePoint` on a two-point line: the
distance along the segment of the closest point on the segment,
clamped to `[0, length]` (GEOS project semantics; on a zero-length
line the result is 0). -/
noncomputable def lineLocatePoint (a b p : RPt) : ℝ :=
  let length := distance a b
  let t := ((p.x - a.x) * (b.x - a.x) + (p.y - a.y) * (b.y - a.y)) / length
  max 0 (min length t)

/-- Models `QgsGeometry.interpolate(d).asPoint()` on a two-point line:
the point at distance `d` along the segment.  For a distance outside
`[0, length]` the geometry library returns a null geometry and
`asPoint` on it raises (the callers catch the exception and produce no
point), modelled as `none`. -/
noncomputable def interpolateOnLine (a b : RPt) (d : ℝ) : Option RPt :=
  let length := distance a b
  if 0 ≤ d ∧ d ≤ length then
    some ⟨a.x + d / length * (b.x - a.x), a.y + d / length * (b.y - a.y)⟩
  else none

/-- The composition `interpolate(lineLocatePoint(p))` used by
`_isPointInBuffers` for line segments.  The located distance always
lies within `[0, length]`, so the `none` branch is unreachable; `p`
is returned there only to make the function total. -/
noncomputable def lineProjPoint (a b p : RPt) : RPt :=
  match interpolateOnLine a b (lineLocatePoint a b p) with
  | some q => q
  | none => p

/-- The centreline projection `_isPointInBuffers` computes for a
containing segment: radial projection onto the circle for circular
segments, point-on-segment projection for lines. -/
noncomputable def projOnSegment (seg : RSeg) (p : RPt) : RPt :=
  if seg.segment_type = .circular then
    closest_point_on_arc_to_given_point (seg.center.getD ⟨0, 0⟩) (seg.radius.getD 0) p
  else
    lineProjPoint (seg.geometry.headD ⟨0, 0⟩) (seg.geometry.getLastD ⟨0, 0⟩) p

/-- A segment has a set buffer that reports containing `p` under the
polygon-containment test `contains` (the `QgsGeometry.contains` call of
the source, taken as a parameter of the embedding). -/
def BufferContains (contains : List RPt → RPt → Bool) (p : RPt) (seg : RSeg) : Prop :=
  ∃ buf, seg.square_buffer = some buf ∧ contains buf p = true

/-- One iteration of the segment loop of `_isPointInBuffers` (source
lines 754–777): segments without a set buffer are passed over; for a
containing segment the centreline projection and its offset distance
are computed and the running minimum (`min_offset`, initially infinite,
modelled by starting from `none`) is updated on a strictly smaller
offset. -/
noncomputable def scanStep (contains : List RPt → RPt → Bool) (p : RPt)
    (acc : Option (ℝ × RSeg × RPt)) (seg : RSeg) : Option (ℝ × RSeg × RPt) :=
  match seg.square_buffer with
  | none => acc
  | some buf =>
      if contains buf p then
        let proj := projOnSegment seg p
        let off := distance proj p
        match acc with
        | none => some (off, seg, proj)
        | some best => if off < best.1 then some (off, seg, proj) else some best
      else acc

/-- The recomputation path of `_isPointInBuffers`: scan all segments
and return the containing segment with minimal offset together with its
centreline projection, or `none` when no set buffer contains the
point. -/
noncomputable def scanBuffers (contains : List RPt → RPt → Bool) (segs : List RSeg) (p : RPt) :
    Option (RSeg × RPt) :=
  (segs.foldl (scanStep contains p) none).map (fun best => (best.2.1, best.2.2))

/-- The map tool's state, restricted to the fields the projection
claims are about.  The three cache fields `last_point`,
`last_containing_segment` and `last_closest_point` are always assigned
together in the source, so they are collapsed into one optional pair;
`hasAlignment` stands for `self.alignmentGeom is None or
self.alignmentGeom.isEmpty()` being false. -/
structure ToolState where
  segments : List RSeg
  startMeasure : ℝ
  hasAlignment : Bool
  cache : Option (RPt × Option (RSeg × RPt))

/-- Embeds `_isPointInBuffers` (source lines 736–785): a query within
`0.0001` of the cached query point in both axes returns the cached
result and leaves the state unchanged; any other query rescans the
segments and overwrites the one-entry cache. -/
noncomputable def isPointInBuffers (contains : List RPt → RPt → Bool) (st : ToolState) (p : RPt) :
    ToolState × Option (RSeg × RPt) :=
  match st.cache with
  | some (lp, res) =>
      if |p.x - lp.x| < 0.0001 ∧ |p.y - lp.y| < 0.0001 then (st, res)
      else
        let r := scanBuffers contains st.segments p
        ({ st with cache := some (p, r) }, r)
  | none =>
      let r := scanBuffers contains st.segments p
      ({ st with cache := some (p, r) }, r)

/-- Embeds `setAlignment` (source lines 310–323) called with a new
non-empty alignment: the alignment fields and the freshly parsed
segment list are replaced, and the cache fields are left untouched (the
method never resets `last_point`, `last_containing_segment` or
`last_closest_point`). -/
def setAlignment (st : ToolState) (segs : List RSeg) (m : ℝ) : ToolState :=
  { segments := segs, startMeasure := m, hasAlignment := true, cache := st.cache }

/-- The cross product `_determineSide` computes: segment direction
vector crossed with the vector from the projected point to the query
point. -/
def segCross (pt proj : RPt) (seg : RSeg) : ℝ :=
  let segStart := seg.geometry.headD ⟨0, 0⟩
  let segEnd := seg.geometry.getLastD ⟨0, 0⟩
  (segEnd.x - segStart.x) * (pt.y - proj.y) - (segEnd.y - segStart.y) * (pt.x - proj.x)

/-- Embeds `_determineSide` (source lines 706–734). -/
noncomputable def determineSide (pt proj : RPt) (seg : RSeg) : Side :=
  if seg.geometry.length < 2 then .undefined
  else
    let cross := segCross pt proj seg
    if |cross| < 0.001 then .onLine
    else if cross > 0 then .left
    else .right

/-- Embeds `_determine_side_for_circular_string` (source lines
635–653). -/
noncomputable def determine_side_for_circular_string (center : RPt) (radius : ℝ) (given : RPt)
    (curvature : ℝ) : Side :=
  let distance_to_center := Real.sqrt ((given.x - center.x) ^ 2 + (given.y - center.y) ^ 2)
  let direction : ℝ := if curvature > 0 then 1 else -1
  let signed_offset := direction * (distance_to_center - radius)
  if |signed_offset| < 0.001 then .onLine
  else if signed_offset > 0 then .left
  else .right

/-- Embeds `_calculate_station_on_arc` (source lines 678–704).  `p2` is
a parameter of the source function but is not used by it. -/
noncomputable def calculate_station_on_arc (p1 p2 closest center : RPt)
    (radius curvature start_measure : ℝ) : ℝ :=
  if distance p1 closest < 0.001 then start_measure
  else
    let start_angle := atan2 (p1.y - center.y) (p1.x - center.x)
    let closest_angle := atan2 (closest.y - center.y) (closest.x - center.x)
    let angle_diff := closest_angle - start_angle
    let angle_diff2 :=
      if curvature > 0 then (if angle_diff > 0 then angle_diff - 2 * Real.pi else angle_diff)
      else (if angle_diff < 0 then angle_diff + 2 * Real.pi else angle_diff)
    start_measure + radius * |angle_diff2|

/-- The outcome `canvasMoveEvent` reports: either the out-of-bounds
signal or the `(station, offset, side)` triple of `updateInfo`. -/
inductive MoveResult where
  | outOfBounds
  | info (station offset : ℝ) (side : Side)

/-- Embeds the query path of `canvasMoveEvent` (source lines 787–855,
without the panning branch): containment lookup (with its cache),
then the per-kind station/offset/side computation.  The memoised
`cached_curvature` is the pure value of `_calculate_curvature`, so it
is recomputed here. -/
noncomputable def canvasMoveResult (contains : List RPt → RPt → Bool) (st : ToolState) (p : RPt) :
    ToolState × MoveResult :=
  if st.hasAlignment = false then (st, .outOfBounds)
  else
    let r := isPointInBuffers contains st p
    match r with
    | (st1, none) => (st1, .outOfBounds)
    | (st1, some (seg, closest)) =>
        if seg.segment_type = .circular then
          let center := seg.center.getD ⟨0, 0⟩
          let radius := seg.radius.getD 0
          let p1 := seg.geometry.headD ⟨0, 0⟩
          let p_mid := seg.geometry.getD 1 ⟨0, 0⟩
          let p2c := seg.geometry.getD 2 ⟨0, 0⟩
          let curvature := calculate_curvature p1 p_mid p2c center
          let station := calculate_station_on_arc p1 (seg.geometry.getLastD ⟨0, 0⟩) closest center
            radius curvature seg.start_measure
          let offset := distance closest p
          (st1, .info station offset (determine_side_for_circular_string center radius p curvature))
        else
          let a := seg.geometry.headD ⟨0, 0⟩
          let b := seg.geometry.getLastD ⟨0, 0⟩
          let alongDistance := lineLocatePoint a b closest
          (st1, .info (seg.start_measure + alongDistance) (distance closest p)
            (determineSide p closest seg))

/-- The outcome of the inverse lookup on a circular segment: a point,
the structured offset-exceeds-radius failure carrying the reported
maximum valid offset (the source shows it in the warning dialog before
returning `None`), or a plain failure (`None` without that dialog). -/
inductive CircInvResult where
  | pt (p : RPt)
  | offsetExceedsRadius (maxValidOffset : ℝ)
  | error

/-- The converging side of the inverse lookup: the side of the arc on
which a radial offset moves toward the centre — right on a clockwise
arc (`curvature > 0`), left on a counterclockwise one (source lines
2117–2120). -/
def IsConvergingSide (side : Side) (curvature : ℝ) : Prop :=
  (side = .right ∧ curvature > 0) ∨ (side = .left ∧ ¬curvature > 0)

/-- The diverging side: the outward condition of source line 2130. -/
def IsDivergingSide (side : Side) (curvature : ℝ) : Prop :=
  (side = .left ∧ curvature > 0) ∨ (side = .right ∧ ¬curvature > 0)

noncomputable instance decIsConvergingSide (side : Side) (curvature : ℝ) :
    Decidable (IsConvergingSide side curvature) :=
  inferInstanceAs (Decidable ((side = .right ∧ curvature > 0) ∨ (side = .left ∧ ¬curvature > 0)))

noncomputable instance decIsDivergingSide (side : Side) (curvature : ℝ) :
    Decidable (IsDivergingSide side curvature) :=
  inferInstanceAs (Decidable ((side = .left ∧ curvature > 0) ∨ (side = .right ∧ ¬curvature > 0)))

/-- The curvature `_calculatePointOnCircularSegment` computes (and the
source memoises) for a segment: `_calculate_curvature` on the first
three geometry vertices about the centre. -/
noncomputable def arcCurvature (seg : RSeg) (center : RPt) : ℝ :=
  calculate_curvature (seg.geometry.headD ⟨0, 0⟩) (seg.geometry.getD 1 ⟨0, 0⟩)
    (seg.geometry.getD 2 ⟨0, 0⟩) center

/-- The on-circle point at a station, as computed by
`_calculatePointOnCircularSegment` (source lines 2075–2098): rotate
from the start bearing by `(station - start_measure) / radius`,
clockwise or counterclockwise according to the curvature sign. -/
noncomputable def arcPointAtStation (seg : RSeg) (center : RPt) (radius station : ℝ) : RPt :=
  let p1 := seg.geometry.headD ⟨0, 0⟩
  let angle_start := atan2 (p1.y - center.y) (p1.x - center.x)
  let arc_length := station - seg.start_measure
  let angle_at_station :=
    if arcCurvature seg center > 0 then angle_start - arc_length / radius
    else angle_start + arc_length / radius
  ⟨center.x + radius * Real.cos angle_at_station, center.y + radius * Real.sin angle_at_station⟩

/-- Embeds `_calculatePointOnCircularSegment` (source lines 2061–2139).
`error` stands for the `None` returns without the offset dialog
(missing centre or radius, fewer than three vertices — an exception the
caller catches — or a zero radial length); `offsetExceedsRadius`
carries the maximum valid offset the warning dialog reports. -/
noncomputable def calculatePointOnCircularSegment (seg : RSeg) (station offset : ℝ) (side : Side) :
    CircInvResult :=
  match seg.center, seg.radius with
  | some center, some radius =>
      if seg.geometry.length < 3 then .error
      else
        let point_on_arc := arcPointAtStation seg center radius station
        if |offset| < 0.001 then .pt point_on_arc
        else
          let radial_x := point_on_arc.x - center.x
          let radial_y := point_on_arc.y - center.y
          let radial_length := Real.sqrt (radial_x ^ 2 + radial_y ^ 2)
          if radial_length = 0 then .error
          else
            let rx := radial_x / radial_length
            let ry := radial_y / radial_length
            if IsConvergingSide side (arcCurvature seg center) ∧ radius ≤ offset then
              .offsetExceedsRadius radius
            else if IsDivergingSide side (arcCurvature seg center) then
              .pt ⟨point_on_arc.x + rx * offset, point_on_arc.y + ry * offset⟩
            else
              .pt ⟨point_on_arc.x - rx * offset, point_on_arc.y - ry * offset⟩
  | _, _ => .error

/-- Embeds `_calculatePointOnLineSegment` (source lines 2012–2059) on
the two-point line geometry the decomposer produces: interpolate the
centreline point at `station - start_measure` (no point when that
distance falls outside the line), return it for a near-zero offset,
otherwise displace it by `offset` along the side-dependent
perpendicular of the line direction. -/
noncomputable def calculatePointOnLineSegment (seg : RSeg) (station offset : ℝ) (side : Side) :
    Option RPt :=
  let a := seg.geometry.headD ⟨0, 0⟩
  let b := seg.geometry.getLastD ⟨0, 0⟩
  let distance_along := station - seg.start_measure
  match interpolateOnLine a b distance_along with
  | none => none
  | some point_on_line =>
      if |offset| < 0.001 then some point_on_line
      else if seg.geometry.length < 2 then none
      else
        let dx0 := b.x - a.x
        let dy0 := b.y - a.y
        let length := Real.sqrt (dx0 ^ 2 + dy0 ^ 2)
        if length = 0 then none
        else
          let dx := dx0 / length
          let dy := dy0 / length
          let perp_x := if side = .left then -dy else dy
          let perp_y := if side = .left then dx else -dx
          some ⟨point_on_line.x + perp_x * offset, point_on_line.y + perp_y * offset⟩

/-- Scenario A's single line segment: the line from `(0,0)` (measure 0)
to `(1000,0)` (measure 1000) with corridor half-width 500, its buffer
built by the line branch of `calculate_square_buffer`. -/
noncomputable def scenarioALineSegment : RSeg :=
  { geometry := [⟨0, 0⟩, ⟨1000, 0⟩], start_measure := 0, end_measure := 1000,
    segment_type := .line, center := none, radius := none,
    square_buffer := calculate_line_buffer ⟨0, 0⟩ ⟨1000, 0⟩ 500 }

/-- Scenario A's tool state: the one-segment alignment, fresh cache. -/
noncomputable def scenarioAState : ToolState :=
  { segments := [scenarioALineSegment], startMeasure := 0, hasAlignment := true, cache := none }

/-- A containment test that reports every point inside every polygon
(a concrete oracle for closed counterexamples). -/
def alwaysContains : List RPt → RPt → Bool := fun _ _ => true

/-- A line segment of a first alignment (measures 0–10), with a set
buffer. -/
def c7SegA : RSeg :=
  { geometry := [⟨0, 0⟩, ⟨10, 0⟩], start_measure := 0, end_measure := 10,
    segment_type := .line, center := none, radius := none, square_buffer := some [] }

/-- A line segment of a replacement alignment (measures 100–110), with
a set buffer. -/
def c7SegB : RSeg :=
  { geometry := [⟨100, 0⟩, ⟨110, 0⟩], start_measure := 100, end_measure := 110,
    segment_type := .line, center := none, radius := none, square_buffer := some [] }

/-- The tool state holding the first alignment of the cache scenario. -/
def c7State0 : ToolState :=
  { segments := [c7SegA], startMeasure := 0, hasAlignment := true, cache := none }

/-- The counterclockwise quarter arc of radius 1 about the origin
through `(1,0)`, `(3/5,4/5)`, `(0,1)`, with its derived centre and
radius. -/
noncomputable def c3QuarterArcSeg : RSeg :=
  { geometry := [⟨1, 0⟩, ⟨3 / 5, 4 / 5⟩, ⟨0, 1⟩], start_measure := 0, end_measure := 2,
    segment_type := .circular, center := some ⟨0, 0⟩, radius := some 1,
    square_buffer := none }

/-- The same counterclockwise quarter arc scaled to the tiny radius
`1/2500 = 0.0004`, below the inverse lookup's `0.001` zero-offset
threshold. -/
noncomputable def c3TinyArcSeg : RSeg :=
  { geometry := [⟨1 / 2500, 0⟩, ⟨3 / 12500, 4 / 12500⟩, ⟨0, 1 / 2500⟩],
    start_measure := 0, end_measure := 1, segment_type := .circular,
    center := some ⟨0, 0⟩, radius := some (1 / 2500), square_buffer := none }

theorem chainEnd_append (ys : List Seg) :
    ∀ (xs : List Seg) (m : ℚ), chainEnd m (xs ++ ys) = chainEnd (chainEnd m xs) ys
  | [], _ => rfl
  | seg :: rest, _ => by
      simpa [chainEnd] using chainEnd_append ys rest seg.end_measure

theorem ChainFrom.append_chain (ys : List Seg) :
    ∀ (xs : List Seg) (m : ℚ), ChainFrom m xs → ChainFrom (chainEnd m xs) ys →
      ChainFrom m (xs ++ ys)
  | [], _, _, hys => hys
  | seg :: rest, _, hxs, hys =>
      ⟨hxs.1, ChainFrom.append_chain ys rest seg.end_measure hxs.2 hys⟩

theorem lineSegs_chain :
    ∀ (pts : List Vtx) (c : ℚ),
      ChainFrom c (lineSegs c pts).2 ∧ (lineSegs c pts).1 = chainEnd c (lineSegs c pts).2
  | [], _ => by simp [lineSegs, ChainFrom, chainEnd]
  | [_], _ => by simp [lineSegs, ChainFrom, chainEnd]
  | a :: b :: t, c => by
      have ih := lineSegs_chain (b :: t) b.m
      refine ⟨⟨rfl, ?_⟩, ?_⟩
      · simpa [lineSegs, chainEnd] using ih.1
      · simpa [lineSegs, chainEnd] using ih.2

/-- The window step of `arcWindowSegs` written as one equation: a
raising window abandons the shape, any other window appends its
segment. -/
theorem arcWindowSegs_cons_eq (current : ℚ) (p q r : Vtx) (rest : List Vtx) :
    arcWindowSegs current (p :: q :: r :: rest)
      = if circle_center_from_three_points p.pt q.pt r.pt = .raises then (current, [])
        else ((arcWindowSegs r.m (r :: rest)).1,
              (⟨[p, q, r], current, r.m, .circular⟩ : Seg)
                :: (arcWindowSegs r.m (r :: rest)).2) := by
  cases h : circle_center_from_three_points p.pt q.pt r.pt <;> simp [arcWindowSegs, h]

theorem arcWindowSegs_chain :
    ∀ (pts : List Vtx) (c : ℚ),
      ChainFrom c (arcWindowSegs c pts).2
        ∧ (arcWindowSegs c pts).1 = chainEnd c (arcWindowSegs c pts).2
  | [], _ => by simp [arcWindowSegs, ChainFrom, chainEnd]
  | [_], _ => by simp [arcWindowSegs, ChainFrom, chainEnd]
  | [_, _], _ => by simp [arcWindowSegs, ChainFrom, chainEnd]
  | p :: q :: r :: rest, c => by
      have ih := arcWindowSegs_chain (r :: rest) r.m
      rw [arcWindowSegs_cons_eq]
      by_cases h : circle_center_from_three_points p.pt q.pt r.pt = .raises
      · simp [h, ChainFrom, chainEnd]
      · simp only [if_neg h]
        exact ⟨⟨rfl, ih.1⟩, by simpa [chainEnd] using ih.2⟩

theorem parseShape_chain (s : Shape) (c : ℚ) :
    ChainFrom c (parseShape c s).2 ∧ (parseShape c s).1 = chainEnd c (parseShape c s).2 := by
  cases s with
  | line pts => simpa [parseShape] using lineSegs_chain pts c
  | circular pts =>
      by_cases h : 3 ≤ pts.length
      · simpa [parseShape, h] using arcWindowSegs_chain pts c
      · simp [parseShape, h, ChainFrom, chainEnd]

theorem parseShapes_chain :
    ∀ (shapes : List Shape) (c : ℚ),
      ChainFrom c (parseShapes c shapes).2
        ∧ (parseShapes c shapes).1 = chainEnd c (parseShapes c shapes).2
  | [], _ => by simp [parseShapes, ChainFrom, chainEnd]
  | s :: rest, c => by
      have h1 := parseShape_chain s c
      have ih := parseShapes_chain rest (parseShape c s).1
      refine ⟨?_, ?_⟩
      · refine ChainFrom.append_chain _ _ _ h1.1 ?_
        rw [← h1.2]
        simpa [parseShapes] using ih.1
      · simp only [parseShapes, chainEnd_append]
        rw [← h1.2]
        exact ih.2

theorem ChainFrom.getD_contiguous :
    ∀ (segs : List Seg) (m : ℚ), ChainFrom m segs →
      ∀ i, i + 1 < segs.length →
        (segs.getD i sdflt).end_measure = (segs.getD (i + 1) sdflt).start_measure
  | [], _, _, i, hi => by simp at hi
  | [_], _, _, i, hi => by simp at hi
  | _ :: s2 :: rest, _, hch, 0, _ => by
      simpa using (hch.2.1).symm
  | s :: s2 :: rest, _, hch, i + 1, hi => by
      have := ChainFrom.getD_contiguous (s2 :: rest) s.end_measure hch.2 i (by
        simpa using Nat.lt_of_succ_lt_succ hi)
      simpa using this

theorem ChainFrom.head_start :
    ∀ (segs : List Seg) (m : ℚ), ChainFrom m segs →
      ∀ h : segs ≠ [], (segs.head h).start_measure = m
  | [], _, _, h => absurd rfl h
  | _ :: _, _, hch, _ => hch.1

theorem arcWindowSegs_append_odd (z : Vtx) :
    ∀ (pts : List Vtx), pts.length % 2 = 1 →
      ∀ c, arcWindowSegs c (pts ++ [z]) = arcWindowSegs c pts
  | [], h, _ => by simp at h
  | [a], _, c => by simp [arcWindowSegs]
  | [a, b], h, _ => by simp at h
  | a :: b :: r :: t2, h, c => by
      have ih := arcWindowSegs_append_odd z (r :: t2) (by
        simp only [List.length_cons] at h ⊢
        omega) r.m
      simp only [List.cons_append] at ih
      simp only [List.cons_append, arcWindowSegs_cons_eq]
      by_cases hc : circle_center_from_three_points a.pt b.pt r.pt = .raises
      · simp [hc]
      · simp only [if_neg hc]
        rw [ih]

theorem arcWindowSegs_window_structure (d : Vtx) :
    ∀ (pts : List Vtx) (c : ℚ), ∀ seg ∈ (arcWindowSegs c pts).2, ∃ j,
      2 * j + 2 < pts.length
      ∧ seg.geometry = [pts.getD (2 * j) d, pts.getD (2 * j + 1) d, pts.getD (2 * j + 2) d]
      ∧ seg.end_measure = (pts.getD (2 * j + 2) d).m
      ∧ seg.segment_type = .circular
  | [], _, seg, hmem => by simp [arcWindowSegs] at hmem
  | [_], _, seg, hmem => by simp [arcWindowSegs] at hmem
  | [_, _], _, seg, hmem => by simp [arcWindowSegs] at hmem
  | p :: q :: r :: rest, c, seg, hmem => by
      rw [arcWindowSegs_cons_eq] at hmem
      by_cases hc : circle_center_from_three_points p.pt q.pt r.pt = .raises
      · rw [if_pos hc] at hmem
        simp at hmem
      · rw [if_neg hc] at hmem
        simp only [List.mem_cons] at hmem
        have e : ∀ k, (p :: q :: r :: rest).getD (k + 2) d = (r :: rest).getD k d :=
          fun _ => rfl
        rcases hmem with rfl | hmem
        · exact ⟨0, by simp only [List.length_cons]; omega, rfl, rfl, rfl⟩
        · obtain ⟨j, hj, hg, hm, ht⟩ :=
            arcWindowSegs_window_structure d (r :: rest) r.m seg hmem
          refine ⟨j + 1, ?_, ?_, ?_, ht⟩
          · simp only [List.length_cons] at hj ⊢
            omega
          · rw [hg, show 2 * (j + 1) + 2 = (2 * j + 2) + 2 from by ring,
                show 2 * (j + 1) + 1 = (2 * j + 1) + 2 from by ring,
                show 2 * (j + 1) = (2 * j) + 2 from by ring]
            simp only [e]
          · rw [hm, show 2 * (j + 1) + 2 = (2 * j + 2) + 2 from by ring]
            simp only [e]

/-- C4, counterexample.  The claim requires the measures to strictly
increase (each segment's `end_measure` strictly above its
`start_measure`).  The decomposer reads `end_measure` from the measure
attached to the input vertex without any check, so a line shape whose
second vertex carries measure 0 while the running measure is already 0
produces a segment with `end_measure = start_measure = 0`. -/
theorem c4_counterexample_no_strict_increase :
    parseAlignmentSegments 0 [Shape.line [⟨0, 0, 0⟩, ⟨1, 0, 0⟩]]
        = [⟨[⟨0, 0, 0⟩, ⟨1, 0, 0⟩], 0, 0, .line⟩]
      ∧ ¬ ∀ s ∈ parseAlignmentSegments 0 [Shape.line [⟨0, 0, 0⟩, ⟨1, 0, 0⟩]],
            s.start_measure < s.end_measure := by
  have hparse : parseAlignmentSegments 0 [Shape.line [⟨0, 0, 0⟩, ⟨1, 0, 0⟩]]
      = [⟨[⟨0, 0, 0⟩, ⟨1, 0, 0⟩], 0, 0, .line⟩] := rfl
  refine ⟨hparse, fun hall => ?_⟩
  have h := hall ⟨[⟨0, 0, 0⟩, ⟨1, 0, 0⟩], 0, 0, .line⟩ (by
    rw [hparse]
    exact List.mem_singleton_self _)
  exact absurd h (lt_irrefl 0)

/-- C4, amended.  For every decomposition of a compound curve,
`segments[i].end_measure = segments[i+1].start_measure` for every
consecutive pair and `segments[0].start_measure` is the alignment's
start measure (the running measure is threaded through every produced
segment, and a skipped shape leaves it unchanged).  Strict increase of
the measures does not hold in general: `end_measure` is copied from the
input vertex's measure attribute, which the source never validates
against the running measure (see the counterexample). -/
theorem c4_segment_measure_contiguity (m : ℚ) (shapes : List Shape) :
    (∀ i, i + 1 < (parseAlignmentSegments m shapes).length →
        ((parseAlignmentSegments m shapes).getD i sdflt).end_measure
          = ((parseAlignmentSegments m shapes).getD (i + 1) sdflt).start_measure)
      ∧ ∀ h : parseAlignmentSegments m shapes ≠ [],
          ((parseAlignmentSegments m shapes).head h).start_measure = m := by
  have hch : ChainFrom m (parseAlignmentSegments m shapes) := (parseShapes_chain shapes m).1
  exact ⟨fun i hi => ChainFrom.getD_contiguous _ _ hch i hi,
    fun h => ChainFrom.head_start _ _ hch h⟩

/-- C10.  A circular string with an even number `n > 3` of points is
decomposed by three-point windows advancing by two (`range(0,
num_points - 2, 2)`): every produced segment's geometry is the window
at an even start index `2j` with `2j + 2 ≤ n - 2` and its `end_measure`
is the measure of the window's third point; consequently the final
point (index `n - 1`) is used by no segment, which the first conjunct
states as the decomposition of the string being equal, segment for
segment, to the decomposition of the string without its last point. -/
theorem c10_even_string_final_point_unused (c : ℚ) (pts : List Vtx)
    (heven : pts.length % 2 = 0) (hlen : 3 < pts.length) :
    arcWindowSegs c pts = arcWindowSegs c pts.dropLast
      ∧ ∀ seg ∈ (arcWindowSegs c pts).2, ∃ j,
          2 * j + 2 ≤ pts.length - 2
          ∧ seg.geometry
              = [pts.getD (2 * j) vdflt, pts.getD (2 * j + 1) vdflt,
                 pts.getD (2 * j + 2) vdflt]
          ∧ seg.end_measure = (pts.getD (2 * j + 2) vdflt).m := by
  constructor
  · have hne : pts ≠ [] := by
      intro h
      rw [h] at hlen
      simp at hlen
    conv_lhs => rw [← List.dropLast_append_getLast hne]
    refine arcWindowSegs_append_odd (pts.getLast hne) pts.dropLast ?_ c
    rw [List.length_dropLast]
    omega
  · intro seg hmem
    obtain ⟨j, hj, hg, hm, _⟩ := arcWindowSegs_window_structure vdflt pts c seg hmem
    exact ⟨j, by omega, hg, hm⟩

/-- C10, witness: a concrete four-point circular string decomposes
identically with and without its final point. -/
theorem c10_even_string_witness :
    (([⟨0, 0, 0⟩, ⟨1, 1, 1⟩, ⟨2, 0, 2⟩, ⟨9, 9, 9⟩] : List Vtx).length % 2 = 0)
      ∧ arcWindowSegs 0 [⟨0, 0, 0⟩, ⟨1, 1, 1⟩, ⟨2, 0, 2⟩, ⟨9, 9, 9⟩]
          = arcWindowSegs 0 ([⟨0, 0, 0⟩, ⟨1, 1, 1⟩, ⟨2, 0, 2⟩, ⟨9, 9, 9⟩] : List Vtx).dropLast :=
  ⟨by decide,
    (c10_even_string_final_point_unused 0 [⟨0, 0, 0⟩, ⟨1, 1, 1⟩, ⟨2, 0, 2⟩, ⟨9, 9, 9⟩]
      (by decide) (by decide)).1⟩

theorem atan2_sin_cos (θ : ℝ) :
    atan2 (Real.sin θ) (Real.cos θ) = ((θ : Real.Angle)).toReal := by
  have hmem := Real.Angle.toReal_mem_Ioc (θ : Real.Angle)
  have hc : Real.cos ((θ : Real.Angle)).toReal = Real.cos θ := by
    rw [← Real.Angle.cos_coe, Real.Angle.coe_toReal, Real.Angle.cos_coe]
  have hs : Real.sin ((θ : Real.Angle)).toReal = Real.sin θ := by
    rw [← Real.Angle.sin_coe, Real.Angle.coe_toReal, Real.Angle.sin_coe]
  unfold atan2
  rw [← hc, ← hs, Complex.ofReal_cos, Complex.ofReal_sin]
  exact Complex.arg_cos_add_sin_mul_I hmem

theorem sweptAngle_nonneg (c p1 p2 : RPt) : 0 ≤ sweptAngle c p1 p2 :=
  abs_nonneg _

theorem calculate_curvature_eq (p1 p_mid p2 c : RPt) :
    calculate_curvature p1 p_mid p2 c
      = if crossAt c p1 p2 > 0 then -(180 / Real.pi * sweptAngle c p1 p2)
        else 180 / Real.pi * sweptAngle c p1 p2 := by
  simp only [calculate_curvature, sweptAngle, atan2_sin_cos]

theorem curvature_nonpos_of_cross_pos (p1 p_mid p2 c : RPt) (h : 0 < crossAt c p1 p2) :
    calculate_curvature p1 p_mid p2 c ≤ 0 := by
  rw [calculate_curvature_eq, if_pos h]
  have h2 : 0 ≤ 180 / Real.pi * sweptAngle c p1 p2 :=
    mul_nonneg (by positivity) (sweptAngle_nonneg c p1 p2)
  linarith

theorem atan2_zero_one : atan2 0 1 = 0 := by
  unfold atan2
  norm_num [Complex.arg_one]

theorem atan2_one_zero : atan2 1 0 = Real.pi / 2 := by
  unfold atan2
  norm_num [Complex.arg_I]

theorem atan2_zero_neg_one : atan2 0 (-1) = Real.pi := by
  unfold atan2
  norm_num [Complex.arg_neg_one]

theorem atan2_zero_of_nonneg (x : ℝ) (hx : 0 ≤ x) : atan2 0 x = 0 := by
  unfold atan2
  norm_num [Complex.arg_ofReal_of_nonneg hx]

/-- C8.  The curvature value returned by `_calculate_curvature` has
magnitude `180/π` times the swept angle between the bearings of `p1`
and `p2` about `center` (the principal angle between the two
centre-relative vectors, in degrees); its sign is positive when the
cross product of the centre-to-`p1` and centre-to-`p2` vectors is
negative (the clockwise reading) and negative when that cross product
is positive (counterclockwise), exactly as the specification
determines the turning direction. -/
theorem c8_curvature_signed_sweep (p1 p_mid p2 c : RPt) :
    |calculate_curvature p1 p_mid p2 c| = 180 / Real.pi * sweptAngle c p1 p2
      ∧ (crossAt c p1 p2 < 0 →
          calculate_curvature p1 p_mid p2 c = 180 / Real.pi * sweptAngle c p1 p2)
      ∧ (0 < crossAt c p1 p2 →
          calculate_curvature p1 p_mid p2 c = -(180 / Real.pi * sweptAngle c p1 p2)) := by
  have hnn : 0 ≤ 180 / Real.pi * sweptAngle c p1 p2 :=
    mul_nonneg (by positivity) (sweptAngle_nonneg c p1 p2)
  refine ⟨?_, fun h => ?_, fun h => ?_⟩
  · rw [calculate_curvature_eq]
    by_cases hx : crossAt c p1 p2 > 0
    · rw [if_pos hx, abs_neg, abs_of_nonneg hnn]
    · rw [if_neg hx, abs_of_nonneg hnn]
  · rw [calculate_curvature_eq, if_neg (not_lt.mpr h.le)]
  · rw [calculate_curvature_eq, if_pos h]

/-- C8, witness: the quarter turn from `(1,0)` to `(0,1)` about the
origin is counterclockwise (positive cross product) and the curvature
comes out as `-90` degrees. -/
theorem c8_curvature_witness :
    calculate_curvature ⟨1, 0⟩ ⟨1, 0⟩ ⟨0, 1⟩ ⟨0, 0⟩ = -90 := by
  have h := (c8_curvature_signed_sweep ⟨1, 0⟩ ⟨1, 0⟩ ⟨0, 1⟩ ⟨0, 0⟩).2.2 (by norm_num [crossAt])
  rw [h]
  have hs : sweptAngle ⟨0, 0⟩ ⟨1, 0⟩ ⟨0, 1⟩ = Real.pi / 2 := by
    unfold sweptAngle
    norm_num [atan2_one_zero, atan2_zero_one]
    positivity
  rw [hs]
  have hne := Real.pi_ne_zero
  field_simp
  ring

theorem mod2pi_add_two_pi (x : ℝ) (h0 : 0 ≤ x) (h1 : x < 2 * Real.pi) :
    mod2pi (x + 2 * Real.pi) = x := by
  unfold mod2pi
  have hpos : (0 : ℝ) < 2 * Real.pi := by positivity
  have hfloor : ⌊(x + 2 * Real.pi) / (2 * Real.pi)⌋ = 1 := by
    rw [Int.floor_eq_iff]
    constructor
    · rw [le_div_iff hpos]
      push_cast
      linarith
    · rw [div_lt_iff hpos]
      push_cast
      linarith
  rw [hfloor]
  push_cast
  ring

/-- C2.  The sweep angle used by `calculate_square_buffer` equals the
declared measure span divided by the radius exactly when the implied
arc length of the geometric sweep deviates from the measure span by
more than 1 unit, and equals the geometric sweep unchanged when the
deviation is at most 1 unit. -/
theorem c2_sweep_measure_correction (p1 p_mid p2 c : RPt)
    (radius start_measure end_measure : ℝ) :
    (|radius * rawSweepAngle p1 p_mid p2 c - (end_measure - start_measure)| > 1 →
        bufferSweepAngle p1 p_mid p2 c radius start_measure end_measure
          = (end_measure - start_measure) / radius)
      ∧ (|radius * rawSweepAngle p1 p_mid p2 c - (end_measure - start_measure)| ≤ 1 →
        bufferSweepAngle p1 p_mid p2 c radius start_measure end_measure
          = rawSweepAngle p1 p_mid p2 c) := by
  constructor
  · intro h
    simp only [bufferSweepAngle, if_pos h]
  · intro h
    simp only [bufferSweepAngle, if_neg (not_lt.mpr h)]

theorem sweepIsClockwise_semicircle :
    sweepIsClockwise ⟨1, 0⟩ ⟨0, 1⟩ ⟨-1, 0⟩ ⟨0, 0⟩ = false := by
  unfold sweepIsClockwise
  norm_num

/-- The geometric sweep of the counterclockwise upper semicircle
through `(1,0)`, `(0,1)`, `(-1,0)` about the origin is `π`. -/
theorem rawSweepAngle_semicircle :
    rawSweepAngle ⟨1, 0⟩ ⟨0, 1⟩ ⟨-1, 0⟩ ⟨0, 0⟩ = Real.pi := by
  have hpi := Real.pi_pos
  have ha1 : mod2pi (atan2 ((0 : ℝ) - 0) ((1 : ℝ) - 0) + 2 * Real.pi) = 0 := by
    norm_num [atan2_zero_one]
    simpa using mod2pi_add_two_pi 0 le_rfl (by positivity)
  have hamid : mod2pi (atan2 ((1 : ℝ) - 0) ((0 : ℝ) - 0) + 2 * Real.pi) = Real.pi / 2 := by
    norm_num [atan2_one_zero]
    exact mod2pi_add_two_pi (Real.pi / 2) (by positivity) (by linarith)
  have ha2 : mod2pi (atan2 ((0 : ℝ) - 0) ((-1 : ℝ) - 0) + 2 * Real.pi) = Real.pi := by
    norm_num [atan2_zero_neg_one]
    exact mod2pi_add_two_pi Real.pi (by positivity) (by linarith)
  unfold rawSweepAngle
  norm_num [sweepIsClockwise_semicircle] at *
  rw [ha1, hamid, ha2]
  rw [angleIsBetween]
  norm_num [hpi]
  intro h
  ring

/-- C2, witness: for the semicircle of radius 1 declared to span 10
measure units, the implied arc length `π` deviates from 10 by more
than 1 unit and the sweep is overridden to `10 / 1`. -/
theorem c2_sweep_correction_witness :
    |1 * rawSweepAngle ⟨1, 0⟩ ⟨0, 1⟩ ⟨-1, 0⟩ ⟨0, 0⟩ - ((10 : ℝ) - 0)| > 1
      ∧ bufferSweepAngle ⟨1, 0⟩ ⟨0, 1⟩ ⟨-1, 0⟩ ⟨0, 0⟩ 1 0 10 = 10 := by
  have hgt : |1 * rawSweepAngle ⟨1, 0⟩ ⟨0, 1⟩ ⟨-1, 0⟩ ⟨0, 0⟩ - ((10 : ℝ) - 0)| > 1 := by
    rw [rawSweepAngle_semicircle]
    have h4 : Real.pi < 3.15 := Real.pi_lt_315
    have hpi := Real.pi_pos
    rw [abs_of_neg (by linarith)]
    linarith
  have h := (c2_sweep_measure_correction ⟨1, 0⟩ ⟨0, 1⟩ ⟨-1, 0⟩ ⟨0, 0⟩ 1 0 10).1 hgt
  refine ⟨hgt, ?_⟩
  rw [h]
  norm_num

/-- The invariant of the segment loop of `_isPointInBuffers` after the
segments in `done` have been processed: an empty accumulator means no
processed segment has a set, containing buffer; a non-empty accumulator
holds a processed containing segment, its centreline projection, the
projection's offset distance, and that offset is minimal among all
processed containing segments. -/
def ScanInv (contains : List RPt → RPt → Bool) (p : RPt) (done : List RSeg)
    (acc : Option (ℝ × RSeg × RPt)) : Prop :=
  match acc with
  | none => ∀ s ∈ done, ¬ BufferContains contains p s
  | some best =>
      best.2.1 ∈ done ∧ BufferContains contains p best.2.1
        ∧ best.2.2 = projOnSegment best.2.1 p
        ∧ best.1 = distance best.2.2 p
        ∧ ∀ s ∈ done, BufferContains contains p s →
            best.1 ≤ distance (projOnSegment s p) p

theorem ScanInv.extend_not_contains {contains : List RPt → RPt → Bool} {p : RPt}
    {done : List RSeg} {acc : Option (ℝ × RSeg × RPt)} {seg : RSeg}
    (h : ScanInv contains p done acc) (hnc : ¬ BufferContains contains p seg) :
    ScanInv contains p (done ++ [seg]) acc := by
  cases acc with
  | none =>
      intro s hs
      rcases List.mem_append.mp hs with h1 | h1
      · exact h s h1
      · rw [List.mem_singleton.mp h1]
        exact hnc
  | some best =>
      obtain ⟨hmem, hbc, hproj, hoff, hmin⟩ := h
      refine ⟨List.mem_append_left _ hmem, hbc, hproj, hoff, fun s hs hcs => ?_⟩
      rcases List.mem_append.mp hs with h1 | h1
      · exact hmin s h1 hcs
      · rw [List.mem_singleton.mp h1] at hcs
        exact absurd hcs hnc

theorem scanStep_inv (contains : List RPt → RPt → Bool) (p : RPt) (done : List RSeg)
    (acc : Option (ℝ × RSeg × RPt)) (seg : RSeg)
    (h : ScanInv contains p done acc) :
    ScanInv contains p (done ++ [seg]) (scanStep contains p acc seg) := by
  have hext : ∀ s, s ∈ done ++ [seg] → s ∈ done ∨ s = seg := by
    intro s hs
    rcases List.mem_append.mp hs with h1 | h1
    · exact Or.inl h1
    · exact Or.inr (List.mem_singleton.mp h1)
  cases hb : seg.square_buffer with
  | none =>
      have hnc : ¬ BufferContains contains p seg := by
        rintro ⟨buf, hbuf, _⟩
        rw [hb] at hbuf
        exact Option.noConfusion hbuf
      have hstep : scanStep contains p acc seg = acc := by simp [scanStep, hb]
      rw [hstep]
      exact h.extend_not_contains hnc
  | some buf =>
      cases hc : contains buf p with
      | false =>
          have hnc : ¬ BufferContains contains p seg := by
            rintro ⟨buf2, hbuf, hcon⟩
            rw [hb] at hbuf
            injection hbuf with hbe
            rw [← hbe] at hcon
            rw [hcon] at hc
            exact Bool.noConfusion hc
          have hstep : scanStep contains p acc seg = acc := by simp [scanStep, hb, hc]
          rw [hstep]
          exact h.extend_not_contains hnc
      | true =>
          have hbc : BufferContains contains p seg := ⟨buf, hb, hc⟩
          cases acc with
          | none =>
              have hstep : scanStep contains p none seg
                  = some (distance (projOnSegment seg p) p, seg, projOnSegment seg p) := by
                simp [scanStep, hb, hc]
              rw [hstep]
              refine ⟨List.mem_append_right _ (List.mem_singleton_self seg), hbc, rfl, rfl, ?_⟩
              intro s hs hcs
              rcases hext s hs with h1 | rfl
              · exact absurd hcs (h s h1)
              · exact le_refl _
          | some best =>
              obtain ⟨hmem, hbc0, hproj0, hoff0, hmin0⟩ := h
              by_cases hlt : distance (projOnSegment seg p) p < best.1
              · have hstep : scanStep contains p (some best) seg
                    = some (distance (projOnSegment seg p) p, seg, projOnSegment seg p) := by
                  simp [scanStep, hb, hc, hlt]
                rw [hstep]
                refine ⟨List.mem_append_right _ (List.mem_singleton_self seg), hbc, rfl, rfl, ?_⟩
                intro s hs hcs
                rcases hext s hs with h1 | rfl
                · exact le_trans hlt.le (hmin0 s h1 hcs)
                · exact le_refl _
              · have hstep : scanStep contains p (some best) seg = some best := by
                  simp [scanStep, hb, hc, hlt]
                rw [hstep]
                refine ⟨List.mem_append_left _ hmem, hbc0, hproj0, hoff0, ?_⟩
                intro s hs hcs
                rcases hext s hs with h1 | rfl
                · exact hmin0 s h1 hcs
                · exact not_lt.mp hlt

theorem scanFold_inv (contains : List RPt → RPt → Bool) (p : RPt) :
    ∀ (segs done : List RSeg) (acc : Option (ℝ × RSeg × RPt)),
      ScanInv contains p done acc →
      ScanInv contains p (done ++ segs) (segs.foldl (scanStep contains p) acc)
  | [], done, acc, h => by simpa using h
  | seg :: rest, done, acc, h => by
      have h1 := scanStep_inv contains p done acc seg h
      have h2 := scanFold_inv contains p rest (done ++ [seg]) _ h1
      simpa [List.append_assoc] using h2

/-- C5.  The containment scan of `_isPointInBuffers` tests only
segments with a set buffer: it reports no result exactly when no
segment with a set buffer contains the query point (and
`canvasMoveEvent` then emits only the out-of-bounds signal, producing
no station/offset/side); a reported pair consists of a containing
segment with a set buffer together with the query's centreline
projection onto it (radial projection onto the circle for arcs,
point-on-segment projection for lines, per `projOnSegment`), and that
segment's perpendicular offset distance is minimal among all
containing segments.  This characterises the recomputation path; the
one-entry cache in front of it is the subject of C7. -/
theorem c5_projector_min_offset_selection (contains : List RPt → RPt → Bool)
    (segs : List RSeg) (p : RPt) :
    (scanBuffers contains segs p = none ↔ ∀ seg ∈ segs, ¬ BufferContains contains p seg)
      ∧ (∀ seg proj, scanBuffers contains segs p = some (seg, proj) →
          seg ∈ segs ∧ BufferContains contains p seg ∧ proj = projOnSegment seg p
            ∧ ∀ s2 ∈ segs, BufferContains contains p s2 →
                distance proj p ≤ distance (projOnSegment s2 p) p)
      ∧ (∀ st : ToolState, st.hasAlignment = true → st.cache = none →
          scanBuffers contains st.segments p = none →
          (canvasMoveResult contains st p).2 = .outOfBounds) := by
  have hinv := scanFold_inv contains p segs [] none (fun s hs => absurd hs (List.not_mem_nil s))
  rw [List.nil_append] at hinv
  refine ⟨⟨?_, ?_⟩, ?_, ?_⟩
  · intro hnone seg hseg
    unfold scanBuffers at hnone
    cases hfold : segs.foldl (scanStep contains p) none with
    | none =>
        rw [hfold] at hinv
        exact hinv seg hseg
    | some best =>
        rw [hfold] at hnone
        simp at hnone
  · intro hall
    unfold scanBuffers
    cases hfold : segs.foldl (scanStep contains p) none with
    | none => simp
    | some best =>
        rw [hfold] at hinv
        obtain ⟨hmem, hbc, _⟩ := hinv
        exact absurd hbc (hall _ hmem)
  · intro seg proj hsome
    unfold scanBuffers at hsome
    cases hfold : segs.foldl (scanStep contains p) none with
    | none =>
        rw [hfold] at hsome
        simp at hsome
    | some best =>
        obtain ⟨off, bseg, bproj⟩ := best
        rw [hfold] at hsome hinv
        simp only [Option.map_some'] at hsome
        injection hsome with hpair
        injection hpair with h1 h2
        subst h1
        subst h2
        obtain ⟨hmem, hbc, hproj, hoff, hmin⟩ := hinv
        refine ⟨hmem, hbc, hproj, ?_⟩
        intro s2 hs2 hc2
        have hm := hmin s2 hs2 hc2
        rwa [hoff] at hm
  · intro st hal hcache hnone
    unfold canvasMoveResult
    simp only [hal]
    rw [if_neg (by simp)]
    simp [isPointInBuffers, hcache, hnone]

theorem sqrt_eval {a b : ℝ} (hb : 0 ≤ b) (h : a = b ^ 2) : Real.sqrt a = b := by
  rw [h, Real.sqrt_sq hb]

theorem c7_scan_eval :
    scanBuffers alwaysContains [c7SegA] ⟨5, 1⟩ = some (c7SegA, ⟨5, 0⟩) := by
  have hlen : distance ⟨0, 0⟩ ⟨10, 0⟩ = 10 := by
    unfold distance
    exact sqrt_eval (by norm_num) (by norm_num)
  have hloc : lineLocatePoint ⟨0, 0⟩ ⟨10, 0⟩ ⟨5, 1⟩ = 5 := by
    unfold lineLocatePoint
    rw [hlen]
    norm_num
  have hinterp : interpolateOnLine ⟨0, 0⟩ ⟨10, 0⟩ 5 = some ⟨5, 0⟩ := by
    unfold interpolateOnLine
    rw [hlen]
    norm_num [RPt.mk.injEq]
  have hproj : lineProjPoint ⟨0, 0⟩ ⟨10, 0⟩ ⟨5, 1⟩ = ⟨5, 0⟩ := by
    unfold lineProjPoint
    rw [hloc, hinterp]
  have hoffd : distance ⟨5, 0⟩ ⟨5, 1⟩ = 1 := by
    unfold distance
    exact sqrt_eval (by norm_num) (by norm_num)
  unfold scanBuffers
  simp only [List.foldl_cons, List.foldl_nil]
  unfold scanStep
  simp [c7SegA, alwaysContains, projOnSegment, hproj, hoffd]

/-- C7, counterexample.  `setAlignment` replaces the segment list but
never clears the one-entry cache (`last_point`,
`last_containing_segment`, `last_closest_point` are only assigned in
`__init__` and in `_isPointInBuffers`).  After querying the first
alignment at `(5,1)` and then installing a different alignment, the
same query is answered from the stale cache: it returns the previous
alignment's segment, which is not in the current segment list. -/
theorem c7_counterexample_stale_cache_after_setAlignment :
    (isPointInBuffers alwaysContains
        (setAlignment (isPointInBuffers alwaysContains c7State0 ⟨5, 1⟩).1 [c7SegB] 100)
        ⟨5, 1⟩).2 = some (c7SegA, ⟨5, 0⟩)
      ∧ c7SegA ∉ (setAlignment (isPointInBuffers alwaysContains c7State0 ⟨5, 1⟩).1
          [c7SegB] 100).segments := by
  have hq1 : isPointInBuffers alwaysContains c7State0 ⟨5, 1⟩
      = ({ c7State0 with cache := some (⟨5, 1⟩, some (c7SegA, ⟨5, 0⟩)) },
          some (c7SegA, ⟨5, 0⟩)) := by
    unfold isPointInBuffers
    simp [c7State0, c7_scan_eval]
  rw [hq1]
  constructor
  · unfold setAlignment isPointInBuffers
    norm_num
  · unfold setAlignment
    intro hmem
    have he : c7SegA = c7SegB := List.mem_singleton.mp hmem
    have h0 : c7SegA.start_measure = c7SegB.start_measure := by rw [he]
    norm_num [c7SegA, c7SegB] at h0

/-- C7, amended.  The one-entry cache is hit exactly when the query
lies within `1e-4` of the cached query point in both axes (the cached
pair is then returned and the state is unchanged); any differing query
rescans the current segment list and overwrites the cache; but
`setAlignment` does not invalidate the cache: it replaces the segment
list and leaves the cached entry in place, so a repeated query after an
alignment change is answered from the previous alignment's scan (see
the counterexample). -/
theorem c7_cache_reuse_and_no_invalidation (contains : List RPt → RPt → Bool)
    (st : ToolState) (p lp : RPt) (res : Option (RSeg × RPt)) :
    (st.cache = some (lp, res) → |p.x - lp.x| < 0.0001 → |p.y - lp.y| < 0.0001 →
        isPointInBuffers contains st p = (st, res))
      ∧ (st.cache = some (lp, res) → ¬(|p.x - lp.x| < 0.0001 ∧ |p.y - lp.y| < 0.0001) →
        isPointInBuffers contains st p
          = ({ st with cache := some (p, scanBuffers contains st.segments p) },
              scanBuffers contains st.segments p))
      ∧ (st.cache = none →
        isPointInBuffers contains st p
          = ({ st with cache := some (p, scanBuffers contains st.segments p) },
              scanBuffers contains st.segments p))
      ∧ ∀ (segs : List RSeg) (m : ℝ),
          (setAlignment st segs m).cache = st.cache ∧ (setAlignment st segs m).segments = segs := by
  refine ⟨?_, ?_, ?_, fun segs m => ⟨rfl, rfl⟩⟩
  · intro hc h1 h2
    unfold isPointInBuffers
    rw [hc]
    simp [h1, h2]
  · intro hc hn
    unfold isPointInBuffers
    rw [hc]
    simp only [if_neg hn]
  · intro hc
    unfold isPointInBuffers
    rw [hc]

/-- C7, witness: a fresh-cache query recomputes and fills the cache. -/
theorem c7_cache_witness :
    isPointInBuffers alwaysContains c7State0 ⟨5, 1⟩
      = ({ c7State0 with
            cache := some (⟨5, 1⟩, scanBuffers alwaysContains c7State0.segments ⟨5, 1⟩) },
          scanBuffers alwaysContains c7State0.segments ⟨5, 1⟩) :=
  (c7_cache_reuse_and_no_invalidation alwaysContains c7State0 ⟨5, 1⟩ ⟨5, 1⟩ none).2.2.1 rfl

theorem scenario_buffer_eval :
    calculate_line_buffer ⟨0, 0⟩ ⟨1000, 0⟩ 500
      = some [⟨0, 500⟩, ⟨0, -500⟩, ⟨1000, -500⟩, ⟨1000, 500⟩] := by
  have hlen : Real.sqrt ((((1000 : ℝ)) - 0) ^ 2 + (((0 : ℝ)) - 0) ^ 2) = 1000 :=
    sqrt_eval (by norm_num) (by norm_num)
  unfold calculate_line_buffer
  norm_num at hlen ⊢
  rw [hlen]
  norm_num [RPt.mk.injEq]

theorem scenario_line_distance : distance ⟨0, 0⟩ ⟨1000, 0⟩ = 1000 := by
  unfold distance
  exact sqrt_eval (by norm_num) (by norm_num)

theorem scenario_proj_eval : lineProjPoint ⟨0, 0⟩ ⟨1000, 0⟩ ⟨500, 100⟩ = ⟨500, 0⟩ := by
  have hloc : lineLocatePoint ⟨0, 0⟩ ⟨1000, 0⟩ ⟨500, 100⟩ = 500 := by
    unfold lineLocatePoint
    rw [scenario_line_distance]
    norm_num
  have hinterp : interpolateOnLine ⟨0, 0⟩ ⟨1000, 0⟩ 500 = some ⟨500, 0⟩ := by
    unfold interpolateOnLine
    rw [scenario_line_distance]
    norm_num [RPt.mk.injEq]
  unfold lineProjPoint
  rw [hloc, hinterp]

theorem scenario_offset_eval : distance ⟨500, 0⟩ ⟨500, 100⟩ = 100 := by
  unfold distance
  exact sqrt_eval (by norm_num) (by norm_num)

/-- C6, counterexample.  The claim makes the side Left exactly when the
cross product is positive while also making it OnLine below the `0.001`
threshold; the code checks the threshold first, so a query with a
small positive cross product (here `1/2000`) is classified OnLine, not
Left. -/
theorem c6_counterexample_small_positive_cross :
    determineSide ⟨500, 1 / 2000000⟩ ⟨500, 0⟩ scenarioALineSegment = .onLine
      ∧ determineSide ⟨500, 1 / 2000000⟩ ⟨500, 0⟩ scenarioALineSegment ≠ .left
      ∧ 0 < segCross ⟨500, 1 / 2000000⟩ ⟨500, 0⟩ scenarioALineSegment := by
  have hcross : segCross ⟨500, 1 / 2000000⟩ ⟨500, 0⟩ scenarioALineSegment = 1 / 2000 := by
    unfold segCross scenarioALineSegment
    norm_num
  have hside : determineSide ⟨500, 1 / 2000000⟩ ⟨500, 0⟩ scenarioALineSegment = .onLine := by
    unfold determineSide
    rw [hcross]
    norm_num [scenarioALineSegment]
    intro habs
    rw [abs_of_pos (by norm_num : (0 : ℝ) < 1 / 2000)] at habs
    linarith
  refine ⟨hside, ?_, ?_⟩
  · rw [hside]
    simp
  · rw [hcross]
    norm_num

/-- C6, amended.  Scenario A holds: for the single line alignment from
`(0,0)` (measure 0) to `(1000,0)` (measure 1000) with corridor
half-width 500, assuming the polygon containment test reports the
interior point `(500,100)` inside the rectangular buffer, the query
yields station 500, offset 100, side Left.  In general the side of a
line query is OnLine exactly when `|cross| < 0.001` and Left exactly
when `cross ≥ 0.001` (positive and at or above the OnLine threshold,
which the code checks first), where `cross` is the cross product of
the segment direction with the vector from the projected point to the
query point. -/
theorem c6_scenario_a_station_offset_side (contains : List RPt → RPt → Bool)
    (hcont : contains [⟨0, 500⟩, ⟨0, -500⟩, ⟨1000, -500⟩, ⟨1000, 500⟩] ⟨500, 100⟩ = true) :
    (canvasMoveResult contains scenarioAState ⟨500, 100⟩).2 = .info 500 100 .left
      ∧ ∀ pt proj : RPt, ∀ seg : RSeg, ¬seg.geometry.length < 2 →
          ((determineSide pt proj seg = .left ↔ 0.001 ≤ segCross pt proj seg)
            ∧ (determineSide pt proj seg = .onLine ↔ |segCross pt proj seg| < 0.001)) := by
  constructor
  · have hscan : scanBuffers contains [scenarioALineSegment] ⟨500, 100⟩
        = some (scenarioALineSegment, ⟨500, 0⟩) := by
      unfold scanBuffers
      simp only [List.foldl_cons, List.foldl_nil]
      unfold scanStep
      have hbuf : scenarioALineSegment.square_buffer
          = some [⟨0, 500⟩, ⟨0, -500⟩, ⟨1000, -500⟩, ⟨1000, 500⟩] := scenario_buffer_eval
      rw [hbuf]
      simp [hcont, projOnSegment, scenarioALineSegment, scenario_proj_eval]
    have hmove : (isPointInBuffers contains scenarioAState ⟨500, 100⟩)
        = ({ scenarioAState with
              cache := some (⟨500, 100⟩, some (scenarioALineSegment, ⟨500, 0⟩)) },
            some (scenarioALineSegment, ⟨500, 0⟩)) := by
      unfold isPointInBuffers
      simp [scenarioAState, hscan]
    have hloc2 : lineLocatePoint ⟨0, 0⟩ ⟨1000, 0⟩ ⟨500, 0⟩ = 500 := by
      unfold lineLocatePoint
      rw [scenario_line_distance]
      norm_num
    have hsidev : determineSide ⟨500, 100⟩ ⟨500, 0⟩ scenarioALineSegment = .left := by
      have hcross : segCross ⟨500, 100⟩ ⟨500, 0⟩ scenarioALineSegment = 100000 := by
        unfold segCross scenarioALineSegment
        norm_num
      unfold determineSide
      rw [hcross]
      norm_num [scenarioALineSegment]
    simp only [scenarioALineSegment] at hsidev
    unfold canvasMoveResult
    rw [hmove]
    simp [scenarioAState, scenarioALineSegment, hloc2, scenario_offset_eval, hsidev]
  · intro pt proj seg hlen
    have habs : ∀ x : ℝ, ¬|x| < 0.001 → 0 < x → (0.001 : ℝ) ≤ x := by
      intro x hx hpos
      rw [abs_of_pos hpos] at hx
      linarith
    constructor
    · constructor
      · intro hl
        unfold determineSide at hl
        rw [if_neg hlen] at hl
        by_cases hsmall : |segCross pt proj seg| < 0.001
        · rw [if_pos hsmall] at hl
          exact absurd hl (by simp)
        · rw [if_neg hsmall] at hl
          by_cases hpos : segCross pt proj seg > 0
          · exact habs _ hsmall hpos
          · rw [if_neg hpos] at hl
            exact absurd hl (by simp)
      · intro hge
        unfold determineSide
        rw [if_neg hlen, if_neg (by rw [abs_of_pos (by linarith)]; linarith),
          if_pos (by linarith)]
    · constructor
      · intro ho
        unfold determineSide at ho
        rw [if_neg hlen] at ho
        by_cases hsmall : |segCross pt proj seg| < 0.001
        · exact hsmall
        · rw [if_neg hsmall] at ho
          by_cases hpos : segCross pt proj seg > 0
          · rw [if_pos hpos] at ho
            exact absurd ho (by simp)
          · rw [if_neg hpos] at ho
            exact absurd ho (by simp)
      · intro hsmall
        unfold determineSide
        rw [if_neg hlen, if_pos hsmall]

/-- C6, witness: under the always-true containment oracle the Scenario
A query yields station 500, offset 100, side Left. -/
theorem c6_scenario_a_witness :
    (canvasMoveResult alwaysContains scenarioAState ⟨500, 100⟩).2 = .info 500 100 .left :=
  (c6_scenario_a_station_offset_side alwaysContains rfl).1

/-- C9, counterexample.  The claim quantifies over every station in
the segment's measure range, but the inverse lookup interpolates at
`station - start_measure` along the geometric line: when the declared
measure span exceeds the geometric length (here a unit-length line
declared to span measures 0–1000), the interpolation distance falls
outside the line and no point is returned at station 500, so no
round-trip within `1e-3` is possible. -/
theorem c9_counterexample_station_beyond_geometry :
    calculatePointOnLineSegment
        ⟨[⟨0, 0⟩, ⟨1, 0⟩], 0, 1000, .line, none, none, none⟩ 500 0 .left = none := by
  have hlen : distance ⟨0, 0⟩ ⟨1, 0⟩ = 1 := by
    unfold distance
    exact sqrt_eval (by norm_num) (by norm_num)
  unfold calculatePointOnLineSegment
  have hinterp : interpolateOnLine ⟨0, 0⟩ ⟨1, 0⟩ ((500 : ℝ) - 0) = none := by
    unfold interpolateOnLine
    rw [hlen]
    norm_num
  simp only [List.headD_cons, List.getLastD_cons]
  norm_num at hinterp ⊢
  rw [hinterp]

/-- C9, amended.  For a two-point line segment and a station whose
distance from `start_measure` lies within the geometric length of the
line, the inverse lookup at offset 0 returns the centreline point and
the forward computation (`start_measure` plus the located distance of
that point's on-line projection) recovers the station exactly, in
particular within the claimed `1e-3`.  For stations whose distance from
`start_measure` exceeds the geometric length the lookup returns no
point (see the counterexample). -/
theorem c9_line_roundtrip (a b : RPt) (m1 m2 station : ℝ) (side : Side)
    (hlen : 0 < distance a b) (h1 : m1 ≤ station) (h2 : station - m1 ≤ distance a b) :
    ∃ pt, calculatePointOnLineSegment ⟨[a, b], m1, m2, .line, none, none, none⟩
          station 0 side = some pt
        ∧ |m1 + lineLocatePoint a b (lineProjPoint a b pt) - station| ≤ 1 / 1000 := by
  set len := distance a b with hlendef
  set d := station - m1 with hd
  have hd0 : 0 ≤ d := by linarith
  have hdle : d ≤ len := h2
  have hlenne : len ≠ 0 := ne_of_gt hlen
  have hsq : len ^ 2 = (a.x - b.x) ^ 2 + (a.y - b.y) ^ 2 := by
    rw [hlendef]
    unfold distance
    rw [Real.sq_sqrt (by positivity)]
  set P : RPt := ⟨a.x + d / len * (b.x - a.x), a.y + d / len * (b.y - a.y)⟩ with hP
  have hinterp : interpolateOnLine a b d = some P := by
    unfold interpolateOnLine
    rw [← hlendef]
    rw [if_pos ⟨hd0, hdle⟩]
  have hlocP : lineLocatePoint a b P = d := by
    unfold lineLocatePoint
    rw [← hlendef]
    have hdot : (P.x - a.x) * (b.x - a.x) + (P.y - a.y) * (b.y - a.y) = d * len := by
      rw [hP]
      field_simp
      nlinarith [hsq]
    rw [hdot]
    have hdl : d * len / len = d := by
      field_simp
    show max 0 (min len (d * len / len)) = d
    rw [hdl, min_eq_right hdle, max_eq_right hd0]
  have hprojP : lineProjPoint a b P = P := by
    unfold lineProjPoint
    rw [hlocP, hinterp]
  refine ⟨P, ?_, ?_⟩
  · unfold calculatePointOnLineSegment
    simp only [List.headD_cons, List.getLastD_cons, List.getLastD_nil]
    rw [← hd, hinterp]
    norm_num
  · rw [hprojP, hlocP]
    rw [hd]
    norm_num

/-- C9, witness: the 3-4-5 line from `(0,0)` to `(3,4)` (length 5),
measures from 0, station `5/2`, offset 0: the round trip is exact. -/
theorem c9_line_roundtrip_witness :
    ∃ pt, calculatePointOnLineSegment ⟨[⟨0, 0⟩, ⟨3, 4⟩], 0, 5, .line, none, none, none⟩
          (5 / 2) 0 .left = some pt
        ∧ |0 + lineLocatePoint ⟨0, 0⟩ ⟨3, 4⟩ (lineProjPoint ⟨0, 0⟩ ⟨3, 4⟩ pt) - 5 / 2|
            ≤ 1 / 1000 := by
  have hdist : distance ⟨0, 0⟩ ⟨3, 4⟩ = 5 := by
    unfold distance
    exact sqrt_eval (by norm_num) (by norm_num)
  exact c9_line_roundtrip ⟨0, 0⟩ ⟨3, 4⟩ 0 5 (5 / 2) .left (by rw [hdist]; norm_num)
    (by norm_num) (by rw [hdist]; norm_num)

/-- The `abs(offset) < 0.001` shortcut of
`_calculatePointOnCircularSegment`: the centreline point is returned
before the radial-direction and converging-side logic runs. -/
theorem circ_small_offset_returns_centreline (seg : RSeg) (center : RPt)
    (radius station offset : ℝ) (side : Side)
    (hc : seg.center = some center) (hr : seg.radius = some radius)
    (hg : ¬seg.geometry.length < 3) (hsmall : |offset| < 0.001) :
    calculatePointOnCircularSegment seg station offset side
      = .pt (arcPointAtStation seg center radius station) := by
  unfold calculatePointOnCircularSegment
  simp only [hc, hr, if_neg hg, if_pos hsmall]

theorem radial_length_eq (cx cy radius A : ℝ) (hr : 0 ≤ radius) :
    Real.sqrt ((cx + radius * Real.cos A - cx) ^ 2 + (cy + radius * Real.sin A - cy) ^ 2)
      = radius := by
  have h : (cx + radius * Real.cos A - cx) ^ 2 + (cy + radius * Real.sin A - cy) ^ 2
      = radius ^ 2 := by
    have hpyth := Real.sin_sq_add_cos_sq A
    nlinarith [hpyth]
  rw [h, Real.sqrt_sq hr]

/-- C3, amended.  For an arc inverse lookup with the segment's derived
centre and positive radius: when the requested offset is at or above
the `0.001` zero-offset threshold, a converging-side offset
(`right` on a clockwise arc, `left` on a counterclockwise one) that is
`≥ radius` fails with the structured OffsetExceedsRadius outcome
reporting the radius as the maximum valid offset, and no point is
returned; offsets below the threshold return the centreline point
with no offset applied at all (so the converging-side check is
bypassed — see the counterexample); all other lookups apply the offset
radially, outward by `offset` on the diverging side and inward by
`offset` on the converging side. -/
theorem c3_arc_inverse_radial_policy (seg : RSeg) (center : RPt)
    (radius station offset : ℝ) (side : Side)
    (hc : seg.center = some center) (hr : seg.radius = some radius)
    (hg : ¬seg.geometry.length < 3) (hrpos : 0 < radius) :
    (0.001 ≤ |offset| → IsConvergingSide side (arcCurvature seg center) → radius ≤ offset →
        calculatePointOnCircularSegment seg station offset side = .offsetExceedsRadius radius)
      ∧ (|offset| < 0.001 →
        calculatePointOnCircularSegment seg station offset side
          = .pt (arcPointAtStation seg center radius station))
      ∧ (0.001 ≤ |offset| →
          ¬(IsConvergingSide side (arcCurvature seg center) ∧ radius ≤ offset) →
          IsDivergingSide side (arcCurvature seg center) →
          calculatePointOnCircularSegment seg station offset side
            = .pt ⟨(arcPointAtStation seg center radius station).x
                    + ((arcPointAtStation seg center radius station).x - center.x) / radius
                      * offset,
                  (arcPointAtStation seg center radius station).y
                    + ((arcPointAtStation seg center radius station).y - center.y) / radius
                      * offset⟩)
      ∧ (0.001 ≤ |offset| →
          ¬(IsConvergingSide side (arcCurvature seg center) ∧ radius ≤ offset) →
          ¬IsDivergingSide side (arcCurvature seg center) →
          calculatePointOnCircularSegment seg station offset side
            = .pt ⟨(arcPointAtStation seg center radius station).x
                    - ((arcPointAtStation seg center radius station).x - center.x) / radius
                      * offset,
                  (arcPointAtStation seg center radius station).y
                    - ((arcPointAtStation seg center radius station).y - center.y) / radius
                      * offset⟩) := by
  have hradlen : Real.sqrt
      (((arcPointAtStation seg center radius station).x - center.x) ^ 2
        + ((arcPointAtStation seg center radius station).y - center.y) ^ 2) = radius :=
    radial_length_eq center.x center.y radius _ hrpos.le
  refine ⟨fun habs hconv hle => ?_,
    fun hsmall => circ_small_offset_returns_centreline seg center radius station offset side
      hc hr hg hsmall,
    fun habs hnc hdiv => ?_, fun habs hnc hndiv => ?_⟩
  · unfold calculatePointOnCircularSegment
    simp only [hc, hr, if_neg hg, if_neg (not_lt.mpr habs)]
    rw [hradlen, if_neg (ne_of_gt hrpos), if_pos ⟨hconv, hle⟩]
  · unfold calculatePointOnCircularSegment
    simp only [hc, hr, if_neg hg, if_neg (not_lt.mpr habs)]
    rw [hradlen, if_neg (ne_of_gt hrpos), if_neg hnc, if_pos hdiv]
  · unfold calculatePointOnCircularSegment
    simp only [hc, hr, if_neg hg, if_neg (not_lt.mpr habs)]
    rw [hradlen, if_neg (ne_of_gt hrpos), if_neg hnc, if_neg hndiv]

/-- C3, witness: on the counterclockwise quarter arc of radius 1, a
left-side (converging) lookup with offset 2 fails with the structured
outcome reporting maximum valid offset 1. -/
theorem c3_offset_policy_witness :
    calculatePointOnCircularSegment c3QuarterArcSeg 0 2 .left = .offsetExceedsRadius 1 := by
  have hcv : arcCurvature c3QuarterArcSeg ⟨0, 0⟩ ≤ 0 :=
    curvature_nonpos_of_cross_pos ⟨1, 0⟩ ⟨3 / 5, 4 / 5⟩ ⟨0, 1⟩ ⟨0, 0⟩ (by norm_num [crossAt])
  exact (c3_arc_inverse_radial_policy c3QuarterArcSeg ⟨0, 0⟩ 1 0 2 .left rfl rfl
      (by norm_num [c3QuarterArcSeg]) one_pos).1
    (by norm_num [abs_two]) (Or.inr ⟨rfl, not_lt.mpr hcv⟩) (by norm_num)

/-- C3, counterexample.  On the same counterclockwise quarter arc
scaled to radius `1/2500 = 0.0004`, a left-side (converging) lookup
with offset `1/2000 = 0.0005 ≥ radius` must fail per the claim, but the
code's `abs(offset) < 0.001` shortcut returns the centreline point
before the converging-side check runs: a point is returned and no
OffsetExceedsRadius failure is reported. -/
theorem c3_counterexample_small_offset_bypasses_check :
    calculatePointOnCircularSegment c3TinyArcSeg 0 (1 / 2000) .left = .pt ⟨1 / 2500, 0⟩
      ∧ arcCurvature c3TinyArcSeg ⟨0, 0⟩ ≤ 0
      ∧ ((1 / 2500 : ℝ) ≤ 1 / 2000) := by
  have hcv : arcCurvature c3TinyArcSeg ⟨0, 0⟩ ≤ 0 :=
    curvature_nonpos_of_cross_pos ⟨1 / 2500, 0⟩ ⟨3 / 12500, 4 / 12500⟩ ⟨0, 1 / 2500⟩ ⟨0, 0⟩
      (by norm_num [crossAt])
  refine ⟨?_, hcv, by norm_num⟩
  have hb := circ_small_offset_returns_centreline c3TinyArcSeg ⟨0, 0⟩ (1 / 2500) 0 (1 / 2000)
    .left rfl rfl (by norm_num [c3TinyArcSeg])
    (by rw [abs_of_pos (by norm_num : (0 : ℝ) < 1 / 2000)]; norm_num)
  rw [hb]
  have hpt : arcPointAtStation c3TinyArcSeg ⟨0, 0⟩ (1 / 2500) 0 = ⟨1 / 2500, 0⟩ := by
    have h0 : atan2 ((0 : ℝ) - 0) ((1 / 2500 : ℝ) - 0) = 0 := by
      norm_num
      exact atan2_zero_of_nonneg _ (by norm_num)
    unfold arcPointAtStation
    simp only [c3TinyArcSeg, List.headD_cons]
    norm_num at h0 ⊢
    rw [h0]
    exact ⟨Real.cos_zero, Real.sin_zero⟩
  rw [hpt]

end AlignmentSpec
